import Mathlib

/-!
Verification development for the composer `InstanceGenerator`
(`packages/composer-common/lib/serializer/instancegenerator.js`).

The generator is a visitor over a declarative type schema.  Given a class
declaration and a partially populated instance (on top of `parameters.stack`),
it fills every property whose current value is null: primitive fields are
delegated to the configured value generator, enum fields pick a literal,
concept/resource typed fields recurse through a freshly constructed instance,
and relationship typed fields construct only a `Relationship` pointer.

JavaScript specifics embedded explicitly:
* `Math.random()` is modelled as a stream `rand : Nat → ℚ` of draws in `[0,1)`
  together with a counter `k` in the generator state;
* `Math.round` is `⌊q + 1/2⌋`;
* recursion through nested class declarations is bounded by an explicit fuel
  argument (the JavaScript recursion is unbounded and can diverge on cyclic
  by-value type graphs; fuel exhaustion is reported as an error).
-/

namespace Composer

/-- A property of a class declaration: either a `Field` or a
`RelationshipDeclaration` (`isRelationship` distinguishes the two),
with its declared fully-qualified type name and array flag. -/
structure Property where
  name : String
  fqTypeName : String
  isArray : Bool
  isRelationship : Bool
  deriving Repr, DecidableEq

/-- A class declaration of the type schema.  `isEnum` marks an
`EnumDeclaration` (in which case `properties` holds the enum literal
declarations); `isAbstractFlag`/`isConceptFlag` are the results of the
JavaScript `isAbstract()` / `isConcept()` methods. -/
structure ClassDecl where
  ns : String
  name : String
  isEnum : Bool
  isAbstractFlag : Bool
  isConceptFlag : Bool
  superType : Option String
  identifierFieldName : String
  properties : List Property
  deriving Repr, DecidableEq

/-- `getFullyQualifiedName()`: namespace dot name. -/
def fqnOf (c : ClassDecl) : String := c.ns ++ "." ++ c.name

/-- Runtime values held in instance properties. -/
inductive Value where
  | vnull
  | vstr (s : String)
  | vint (i : Int)
  | vdbl (q : ℚ)
  | vbool (b : Bool)
  | varr (elems : List Value)
  | vrelationship (ns ty id : String)
  | vresource (ns ty id : String) (props : List (String × Value))
  | vconcept (ns ty : String) (props : List (String × Value))
  deriving Repr

/-- Read a property of a JavaScript object (`obj[name]`); `none` models
`undefined` (property absent). -/
def getAssoc : List (String × Value) → String → Option Value
  | [], _ => none
  | (k, v) :: rest, name => if k = name then some v else getAssoc rest name

/-- Assign a property of a JavaScript object (`obj[name] = v`): overwrite in
place when present, append otherwise (JS enumeration-order semantics). -/
def setAssoc : List (String × Value) → String → Value → List (String × Value)
  | [], name, v => [(name, v)]
  | (k, w) :: rest, name, v =>
      if k = name then (k, v) :: rest else (k, w) :: setAssoc rest name v

/-- `obj[property.getName()]` on the instance being populated. -/
def getProp (obj : Value) (name : String) : Option Value :=
  match obj with
  | .vresource _ _ _ props => getAssoc props name
  | .vconcept _ _ props => getAssoc props name
  | _ => none

/-- `obj[property.getName()] = v` on the instance being populated. -/
def setProp (obj : Value) (name : String) (v : Value) : Value :=
  match obj with
  | .vresource ns ty id props => .vresource ns ty id (setAssoc props name v)
  | .vconcept ns ty props => .vconcept ns ty (setAssoc props name v)
  | other => other

/-- `Util.isNull(value)`: true for JavaScript `undefined` (absent) and `null`. -/
def isNull : Option Value → Bool
  | none => true
  | some .vnull => true
  | some _ => false

/-- Modelled from the spec: `ModelUtil.isPrimitiveType` (the `modelutil.js`
source is not under `src/`); the primitive kinds are string, boolean,
date-time, double, integer and long (§2, §4.1). -/
def isPrimitiveType (t : String) : Bool :=
  t == "String" || t == "Boolean" || t == "DateTime" ||
  t == "Double" || t == "Integer" || t == "Long"

/-- `modelManager.getType(fqn)`: first declaration of the schema whose
fully-qualified name is `fqn`. -/
def getType (mm : List ClassDecl) (fqn : String) : Option ClassDecl :=
  mm.find? (fun c => fqnOf c == fqn)

/-- The value generator strategy (§4.1); methods are opaque collaborators.
`getEnum` receives the enum's own property (literal) declarations and picks
one of them. -/
structure ValueGenerator where
  getDateTime : Value
  getInteger : Value
  getLong : Value
  getDouble : Value
  getBoolean : Value
  getString : Value
  getEnum : List Property → Property

/-- The `parameters` threaded through the visitor, minus the mutable stack:
the model manager (schema), the configured value generator and the ambient
`Math.random` stream.  The source's `parameters.valueGenerator ||
ValueGeneratorFactory.sample()` default (line 105) is modelled by taking the
generator as always present: the sample variant's own source is not under
`src/`, and the claims quantify over the generator. -/
structure Params where
  modelManager : List ClassDecl
  valueGenerator : ValueGenerator
  rand : Nat → ℚ

/-- Mutable visitor state: `parameters.stack` and the position in the
random stream. -/
structure GenState where
  stack : List Value
  k : Nat
  deriving Repr

/-- JavaScript `Math.round`: round half up. -/
def mathRound (q : ℚ) : Int := ⌊q + 1 / 2⌋

/-- `Math.round(q * 9999)` computed on the rational's numerator and
denominator (so that it evaluates by kernel reduction);
`roundTimes9999_eq` below proves it equal to `mathRound (q * 9999)`. -/
def roundTimes9999 (q : ℚ) : Int :=
  (19998 * q.num + (q.den : Int)) / (2 * (q.den : Int))

/-- Decimal digits of a natural number (JavaScript `Number.prototype.toString`
restricted to naturals); the first argument is structural fuel, `n + 1`
always suffices. -/
def natToStringAux : Nat → Nat → List Char
  | 0, _ => []
  | fuel + 1, n =>
      if n < 10 then [Char.ofNat (48 + n)]
      else natToStringAux fuel (n / 10) ++ [Char.ofNat (48 + n % 10)]

/-- Decimal string of a natural number. -/
def natToString (n : Nat) : String :=
  String.mk (natToStringAux (n + 1) n)

/-- The `left-pad` package: pad `s` on the left with `ch` up to length
`len` (returns `s` unchanged when already long enough). -/
def leftPad (s : String) (len : Nat) (ch : Char) : String :=
  String.mk (List.replicate (len - s.length) ch) ++ s

/-- The identifier suffix synthesized from one random draw `q`:
`leftPad(Math.round(q * 9999).toString(), 4, '0')`
(instancegenerator.js lines 141-142, 205-206, 213-214). -/
def idxString (q : ℚ) : String :=
  leftPad (natToString (roundTimes9999 q).toNat) 4 '0'

/-- One `Math.random()` draw: the suffix from the current stream position,
advancing the counter. -/
def drawIdx (p : Params) (st : GenState) : String × GenState :=
  (idxString (p.rand st.k), { st with k := st.k + 1 })

/-- Modelled from the spec: `Factory.newConcept` (§4.3; the factory source is
not under `src/`): validates that `(ns, ty)` resolves to a declared class,
then constructs an empty concept instance. -/
def newConcept (mm : List ClassDecl) (ns ty : String) : Except String Value :=
  match getType mm (ns ++ "." ++ ty) with
  | none => .error ("TypeNotFound: " ++ ns ++ "." ++ ty)
  | some _ => .ok (.vconcept ns ty [])

/-- Modelled from the spec: `Factory.newResource` (§4.3, §8; source not under
`src/`): validates the type, constructs a resource carrying `id` and with its
identifier field pre-populated with `id`. -/
def newResource (mm : List ClassDecl) (ns ty id : String) : Except String Value :=
  match getType mm (ns ++ "." ++ ty) with
  | none => .error ("TypeNotFound: " ++ ns ++ "." ++ ty)
  | some decl => .ok (.vresource ns ty id [(decl.identifierFieldName, .vstr id)])

/-- Modelled from the spec: `Factory.newRelationship` (§4.3; source not under
`src/`): validates the type, constructs a pure pointer `{ns, ty, id}` with no
properties of the target. -/
def newRelationship (mm : List ClassDecl) (ns ty id : String) : Except String Value :=
  match getType mm (ns ++ "." ++ ty) with
  | none => .error ("TypeNotFound: " ++ ns ++ "." ++ ty)
  | some _ => .ok (.vrelationship ns ty id)

/-- The error message raised by leaf resolution when an abstract type has no
concrete direct subtype (`Globalize` message
`instancegenerator-newinstance-noconcreteclass`, with the type's
fully-qualified name substituted in). -/
def noConcreteSubtypeMsg (fqn : String) : String :=
  "instancegenerator-newinstance-noconcreteclass: " ++ fqn

/-- The contender test inside `findExtendingLeafType`'s `forEach` (lines
165-172): non-abstract, with a non-null direct supertype equal to the input
type's fully-qualified name. -/
def isContenderFor (inputType classDecl : ClassDecl) : Bool :=
  !classDecl.isAbstractFlag &&
    match classDecl.superType with
    | some s => s == fqnOf inputType
    | none => false

/-- `findExtendingLeafType` (instancegenerator.js lines 158-187): when the
input type is abstract, enumerate all class declarations of the schema and
keep those that are non-abstract and whose direct supertype equals the input
type's fully-qualified name; return the first contender, or throw when there
is none.  A non-abstract input is returned unchanged. -/
def findExtendingLeafType (mm : List ClassDecl) (inputType : ClassDecl) :
    Except String ClassDecl :=
  if inputType.isAbstractFlag then
    let contenders := mm.filter (isContenderFor inputType)
    match contenders with
    | c :: _ => .ok c
    | [] => .error (noConcreteSubtypeMsg (fqnOf inputType))
  else
    .ok inputType

/-- The loop body of `visitRelationshipDeclaration` for array-typed
relationships (lines 202-211): build `i` relationship pointers, each with a
fresh random identifier. -/
def relLoop (p : Params) (idName ns ty : String) :
    Nat → GenState → Except String (List Value × GenState)
  | 0, st => .ok ([], st)
  | i + 1, st =>
      let (idx, st1) := drawIdx p st
      let id := idName ++ ":" ++ idx
      match newRelationship p.modelManager ns ty id with
      | .error e => .error e
      | .ok r =>
          match relLoop p idName ns ty i st1 with
          | .error e => .error e
          | .ok (rs, st2) => .ok (r :: rs, st2)

/-- `visitRelationshipDeclaration` (lines 198-219): resolve the target type,
then construct one relationship pointer (or three, for an array) carrying a
synthesized identifier; never recurses into the target's properties. -/
def visitRelationshipDeclaration (rd : Property) (p : Params) (st : GenState) :
    Except String (Value × GenState) :=
  match getType p.modelManager rd.fqTypeName with
  | none => .error ("TypeNotFound: " ++ rd.fqTypeName)
  | some classDeclaration =>
      let identifierFieldName := classDeclaration.identifierFieldName
      if rd.isArray then
        match relLoop p identifierFieldName classDeclaration.ns classDeclaration.name 3 st with
        | .error e => .error e
        | .ok (rs, st2) => .ok (.varr rs, st2)
      else
        let (idx, st1) := drawIdx p st
        let id := identifierFieldName ++ ":" ++ idx
        match newRelationship p.modelManager classDeclaration.ns classDeclaration.name id with
        | .error e => .error e
        | .ok r => .ok (r, st1)

/-- The primitive `switch` of `getFieldValue` (lines 107-120): dispatch on
the type tag to the matching value generator method (`DateTime`, `Integer`,
`Long`, `Double`, `Boolean`, default `getString`). -/
def primValue (valueGenerator : ValueGenerator) (type : String) : Value :=
  match type with
  | "DateTime" => valueGenerator.getDateTime
  | "Integer" => valueGenerator.getInteger
  | "Long" => valueGenerator.getLong
  | "Double" => valueGenerator.getDouble
  | "Boolean" => valueGenerator.getBoolean
  | _ => valueGenerator.getString

/-- `getFieldValue` (lines 103-148), parameterized by `accept`, the
continuation standing for `classDeclaration.accept(this, parameters)` (the
recursion back into `visitClassDeclaration`, tied below with a fuel bound).
The dispatch order follows the source: primitive switch, enum check, then
leaf resolution — the JavaScript condition on line 127 reads the method
reference `classDeclaration.isAbstract`, which is truthy for every class
declaration, so leaf resolution runs unconditionally here. -/
def getFieldValueF (accept : ClassDecl → GenState → Except String (Value × GenState))
    (field : Property) (p : Params) (st : GenState) :
    Except String (Value × GenState) :=
  let type := field.fqTypeName
  let valueGenerator := p.valueGenerator
  if isPrimitiveType type then
    .ok (primValue valueGenerator type, st)
  else
    match getType p.modelManager type with
    | none => .error ("TypeNotFound: " ++ type)
    | some classDeclaration₀ =>
        if classDeclaration₀.isEnum then
          let enumValues := classDeclaration₀.properties
          .ok (.vstr (valueGenerator.getEnum enumValues).name, st)
        else
          match findExtendingLeafType p.modelManager classDeclaration₀ with
          | .error e => .error e
          | .ok classDeclaration =>
              if classDeclaration.isConceptFlag then
                match newConcept p.modelManager classDeclaration.ns classDeclaration.name with
                | .error e => .error e
                | .ok concept =>
                    accept classDeclaration { st with stack := concept :: st.stack }
              else
                let (idx, st1) := drawIdx p st
                let id := classDeclaration.identifierFieldName ++ ":" ++ idx
                match newResource p.modelManager classDeclaration.ns classDeclaration.name id with
                | .error e => .error e
                | .ok resource =>
                    accept classDeclaration { st1 with stack := resource :: st1.stack }

/-- The loop body of `visitField` for array-typed fields (lines 86-91):
generate `i` element values in sequence. -/
def fieldLoopF (accept : ClassDecl → GenState → Except String (Value × GenState))
    (field : Property) (p : Params) :
    Nat → GenState → Except String (List Value × GenState)
  | 0, st => .ok ([], st)
  | i + 1, st =>
      match getFieldValueF accept field p st with
      | .error e => .error e
      | .ok (v, st1) =>
          match fieldLoopF accept field p i st1 with
          | .error e => .error e
          | .ok (vs, st2) => .ok (v :: vs, st2)

/-- `visitField` (lines 84-95): three independently generated elements for an
array field, one value otherwise. -/
def visitFieldF (accept : ClassDecl → GenState → Except String (Value × GenState))
    (field : Property) (p : Params) (st : GenState) :
    Except String (Value × GenState) :=
  if field.isArray then
    match fieldLoopF accept field p 3 st with
    | .error e => .error e
    | .ok (vs, st2) => .ok (.varr vs, st2)
  else
    getFieldValueF accept field p st

/-- `property.accept(this, parameters)` dispatched through `visit`
(lines 45-55) for the two kinds of property: a `RelationshipDeclaration`
goes to `visitRelationshipDeclaration`, a `Field` to `visitField` (the
closed `Property` type leaves no unrecognised case). -/
def acceptPropertyF (accept : ClassDecl → GenState → Except String (Value × GenState))
    (prop : Property) (p : Params) (st : GenState) :
    Except String (Value × GenState) :=
  if prop.isRelationship then visitRelationshipDeclaration prop p st
  else visitFieldF accept prop p st

/-- The property loop of `visitClassDeclaration` (lines 66-73): for each
declared property in order, when the current value is null, generate a value
and assign it. -/
def processPropsF (accept : ClassDecl → GenState → Except String (Value × GenState))
    (p : Params) : List Property → Value → GenState → Except String (Value × GenState)
  | [], obj, st => .ok (obj, st)
  | prop :: rest, obj, st =>
      if isNull (getProp obj prop.name) then
        match acceptPropertyF accept prop p st with
        | .error e => .error e
        | .ok (v, st1) => processPropsF accept p rest (setProp obj prop.name v) st1
      else
        processPropsF accept p rest obj st

/-- `visitClassDeclaration` (lines 64-75): pop the instance to populate from
`parameters.stack`, then run the property loop and return the instance. -/
def visitClassDeclarationF (accept : ClassDecl → GenState → Except String (Value × GenState))
    (cd : ClassDecl) (p : Params) (st : GenState) :
    Except String (Value × GenState) :=
  match st.stack with
  | [] => .error "InstanceGenerator: pop on empty stack"
  | obj :: rest => processPropsF accept p cd.properties obj { st with stack := rest }

/-- The recursive knot: `classDeclaration.accept(this, parameters)` with a
fuel bound on the by-value nesting depth.  The JavaScript recursion carries no
such bound and diverges on cyclic concept nesting; fuel exhaustion surfaces
that as an error. -/
def visitClassDeclaration (p : Params) : Nat → ClassDecl → GenState →
    Except String (Value × GenState)
  | 0, _, _ => .error "InstanceGenerator: recursion budget exhausted"
  | fuel + 1, cd, st =>
      visitClassDeclarationF (fun cd2 st2 => visitClassDeclaration p fuel cd2 st2) cd p st

/-- `getFieldValue` at a given fuel level. -/
def getFieldValue (p : Params) (fuel : Nat) (field : Property) (st : GenState) :
    Except String (Value × GenState) :=
  getFieldValueF (fun cd2 st2 => visitClassDeclaration p fuel cd2 st2) field p st

/-- `visitField` at a given fuel level. -/
def visitField (p : Params) (fuel : Nat) (field : Property) (st : GenState) :
    Except String (Value × GenState) :=
  visitFieldF (fun cd2 st2 => visitClassDeclaration p fuel cd2 st2) field p st

/-- Modelled from the spec: the entry point
`generate(targetType, instance?, context)` (§4.2, §6) — the caller-side
wrapper that seeds the visitor is not under `src/`.  It pushes the (possibly
partially populated) instance on the stack and visits the target class
declaration. -/
def generate (p : Params) (fuel : Nat) (cd : ClassDecl) (inst : Value) (k : Nat) :
    Except String (Value × GenState) :=
  visitClassDeclaration p fuel cd { stack := [inst], k := k }

/-- Whether a value is an object with assignable properties (a resource or a
concept instance). -/
def hasProps : Value → Bool
  | .vresource _ _ _ _ => true
  | .vconcept _ _ _ => true
  | _ => false

/-- A second reading of `getFieldValue`, following the spec's words for the
abstract-type step (§4.2 step 3: "**Abstract class-typed**: resolve a concrete
descendant ... otherwise continue as class-typed"): leaf resolution is guarded
by the *invoked* `isAbstract()` flag instead of always running.  Compared with
`getFieldValueF` (which embeds the source's always-truthy method-reference
check) to show the two agree. -/
def getFieldValueFChecked
    (accept : ClassDecl → GenState → Except String (Value × GenState))
    (field : Property) (p : Params) (st : GenState) :
    Except String (Value × GenState) :=
  let type := field.fqTypeName
  let valueGenerator := p.valueGenerator
  if isPrimitiveType type then
    .ok (primValue valueGenerator type, st)
  else
    match getType p.modelManager type with
    | none => .error ("TypeNotFound: " ++ type)
    | some classDeclaration₀ =>
        if classDeclaration₀.isEnum then
          let enumValues := classDeclaration₀.properties
          .ok (.vstr (valueGenerator.getEnum enumValues).name, st)
        else
          match (if classDeclaration₀.isAbstractFlag then
              findExtendingLeafType p.modelManager classDeclaration₀
            else .ok classDeclaration₀) with
          | .error e => .error e
          | .ok classDeclaration =>
              if classDeclaration.isConceptFlag then
                match newConcept p.modelManager classDeclaration.ns classDeclaration.name with
                | .error e => .error e
                | .ok concept =>
                    accept classDeclaration { st with stack := concept :: st.stack }
              else
                let (idx, st1) := drawIdx p st
                let id := classDeclaration.identifierFieldName ++ ":" ++ idx
                match newResource p.modelManager classDeclaration.ns classDeclaration.name id with
                | .error e => .error e
                | .ok resource =>
                    accept classDeclaration { st1 with stack := resource :: st1.stack }

/-! ### Concrete fixtures used by the witness theorems -/

/-- A concrete sample-style value generator used in witnesses. -/
def sampleVG : ValueGenerator where
  getDateTime := .vstr "2017-01-01T00:00:00Z"
  getInteger := .vint 42
  getLong := .vint 7
  getDouble := .vdbl 0
  getBoolean := .vbool true
  getString := .vstr "hello"
  getEnum := fun l => l.headD ⟨"", "", false, false⟩

/-- Witness schema: `org.acme.A` references `org.acme.B` through a
relationship-typed property, and vice versa (a relationship-only cycle). -/
def wDeclA : ClassDecl :=
  ⟨"org.acme", "A", false, false, false, none, "aId",
    [⟨"aId", "String", false, false⟩, ⟨"b", "org.acme.B", false, true⟩]⟩

/-- Witness schema: the other half of the relationship cycle. -/
def wDeclB : ClassDecl :=
  ⟨"org.acme", "B", false, false, false, none, "bId",
    [⟨"bId", "String", false, false⟩, ⟨"a", "org.acme.A", false, true⟩]⟩

/-- Witness parameters over the `A`/`B` schema with a constant-zero random
stream. -/
def wParamsAB : Params := ⟨[wDeclA, wDeclB], sampleVG, fun _ => 0⟩

/-- Witness instance of `A` with no properties populated. -/
def wInstA : Value := .vresource "org.acme" "A" "aId:0001" []

/-- Witness instance of `A` with every property populated. -/
def wInstAFull : Value :=
  .vresource "org.acme" "A" "aId:0001"
    [("aId", .vstr "aId:0001"), ("b", .vrelationship "org.acme" "B" "bId:0002")]

/-- Witness schema for leaf resolution: an abstract type, then (earlier in
enumeration order) a deeper concrete descendant, then the direct concrete
child. -/
def wAbsA : ClassDecl := ⟨"n", "A0", false, true, false, none, "id", []⟩

/-- A concrete class whose direct supertype is `n.C0` (so only a transitive
descendant of `n.A0`). -/
def wDeep : ClassDecl := ⟨"n", "D0", false, false, false, some "n.C0", "id", []⟩

/-- The direct concrete child of `n.A0`. -/
def wDirect : ClassDecl := ⟨"n", "C0", false, false, false, some "n.A0", "id", []⟩

/-- Leaf-resolution witness schema, deeper descendant listed first. -/
def wMm4 : List ClassDecl := [wAbsA, wDeep, wDirect]

/-- An abstract type with no concrete direct subtype anywhere. -/
def wAbsE : ClassDecl := ⟨"n", "E0", false, true, false, none, "id", []⟩

/-- A concrete host class with a single field whose type is the childless
abstract `n.E0`. -/
def wHost : ClassDecl :=
  ⟨"n", "F0", false, false, false, none, "fId", [⟨"e", "n.E0", false, false⟩]⟩

/-- Parameters for the childless-abstract witness. -/
def wParams5 : Params := ⟨[wAbsE, wHost], sampleVG, fun _ => 0⟩

/-- Witness instance of `n.F0` with only its identifier field populated. -/
def wInstF : Value := .vresource "n" "F0" "f1" [("fId", .vstr "f1")]

/-- An enum declaration with two literals. -/
def wEnum : ClassDecl :=
  ⟨"n", "Color", true, false, false, none, "",
    [⟨"RED", "", false, false⟩, ⟨"GREEN", "", false, false⟩]⟩

/-- Parameters whose schema holds just the enum declaration. -/
def wParams6 : Params := ⟨[wEnum], sampleVG, fun _ => 0⟩

/-! ### Basic lemmas about property access -/

theorem getAssoc_setAssoc_same (l : List (String × Value)) (name : String) (v : Value) :
    getAssoc (setAssoc l name v) name = some v := by
  induction l with
  | nil => simp [setAssoc, getAssoc]
  | cons hd tl ih =>
      by_cases h : hd.1 = name
      · simp [setAssoc, getAssoc, h]
      · simp [setAssoc, getAssoc, h, ih]

theorem getAssoc_setAssoc_other (l : List (String × Value)) (name n : String) (v : Value)
    (h : n ≠ name) : getAssoc (setAssoc l name v) n = getAssoc l n := by
  induction l with
  | nil => simp [setAssoc, getAssoc, Ne.symm h]
  | cons hd tl ih =>
      by_cases hk : hd.1 = name
      · subst hk
        simp [setAssoc, getAssoc, if_neg (Ne.symm h)]
      · simp only [setAssoc, if_neg hk]
        by_cases hn : hd.1 = n
        · simp [getAssoc, hn]
        · simp [getAssoc, hn, ih]

theorem getProp_setProp_same (obj : Value) (name : String) (v : Value)
    (h : hasProps obj = true) : getProp (setProp obj name v) name = some v := by
  cases obj <;> simp_all [hasProps, getProp, setProp, getAssoc_setAssoc_same]

theorem getProp_setProp_other (obj : Value) (name n : String) (v : Value)
    (h : n ≠ name) : getProp (setProp obj name v) n = getProp obj n := by
  cases obj <;> simp [getProp, setProp, getAssoc_setAssoc_other _ _ _ _ h]

theorem hasProps_setProp (obj : Value) (name : String) (v : Value) :
    hasProps (setProp obj name v) = hasProps obj := by
  cases obj <;> simp [hasProps, setProp]

/-! ### Numeric and string lemmas for the identifier scheme -/

theorem roundTimes9999_eq (q : ℚ) : roundTimes9999 q = mathRound (q * 9999) := by
  have hd : (0 : ℚ) < (q.den : ℚ) := by exact_mod_cast q.den_pos
  have hq : (q.num : ℚ) = q * q.den := by
    have h0 := Rat.num_div_den q
    rwa [div_eq_iff (ne_of_gt hd)] at h0
  have h1 : (q * 9999 + 1 / 2 : ℚ) =
      ((19998 * q.num + (q.den : Int) : Int) : ℚ) / ((2 * q.den : ℕ) : ℚ) := by
    rw [eq_div_iff (by positivity)]
    push_cast [hq]
    ring
  rw [mathRound, h1, Rat.floor_intCast_div_natCast, roundTimes9999]
  push_cast
  ring_nf

theorem mathRound_nonneg_of_lt_one (q : ℚ) (h0 : 0 ≤ q) :
    0 ≤ mathRound (q * 9999) := by
  rw [mathRound]
  have : (0 : ℚ) ≤ q * 9999 + 1 / 2 := by nlinarith [h0]
  exact_mod_cast Int.le_floor.mpr (by exact_mod_cast this)

theorem mathRound_le_9999 (q : ℚ) (h1 : q < 1) :
    mathRound (q * 9999) ≤ 9999 := by
  rw [mathRound]
  have hx : (q * 9999 + 1 / 2 : ℚ) < ((10000 : ℤ) : ℚ) := by
    push_cast
    nlinarith
  have := Int.floor_lt.mpr hx
  omega

theorem natToStringAux_fuel_irrel (fuel : Nat) :
    ∀ fuel' n, n < fuel → n < fuel' →
      natToStringAux fuel n = natToStringAux fuel' n := by
  induction fuel using Nat.strong_induction_on with
  | _ fuel ih =>
      intro fuel' n h h'
      obtain ⟨f, rfl⟩ : ∃ f, fuel = f + 1 := ⟨fuel - 1, by omega⟩
      obtain ⟨f', rfl⟩ : ∃ f', fuel' = f' + 1 := ⟨fuel' - 1, by omega⟩
      by_cases hn : n < 10
      · simp [natToStringAux, hn]
      · have hdiv : n / 10 < n := Nat.div_lt_self (by omega) (by omega)
        simp only [natToStringAux, if_neg hn]
        rw [ih f (by omega) f' (n / 10) (by omega) (by omega)]

theorem natToStringAux_length (k : Nat) :
    ∀ n, 0 < k → n < 10 ^ k → (natToStringAux (n + 1) n).length ≤ k := by
  induction k with
  | zero => intro n h; omega
  | succ k ih =>
      intro n _ hn
      by_cases hsmall : n < 10
      · simp [natToStringAux, hsmall]
      · have hk : 0 < k := by
          by_contra hk0
          have : k = 0 := by omega
          subst this
          simp at hn
          omega
        have hdiv : n / 10 < 10 ^ k := by
          rw [Nat.div_lt_iff_lt_mul (by norm_num)]
          calc n < 10 ^ (k + 1) := hn
            _ = 10 ^ k * 10 := by ring
        have hrec : natToStringAux n (n / 10) = natToStringAux (n / 10 + 1) (n / 10) :=
          natToStringAux_fuel_irrel _ _ _ (Nat.div_lt_self (by omega) (by omega)) (by omega)

        have ihlen := ih (n / 10) hk hdiv
        simp only [natToStringAux, if_neg hsmall, List.length_append, List.length_cons,
          List.length_nil]
        rw [hrec]
        omega

theorem natToString_length_le_four (n : Nat) (h : n ≤ 9999) :
    (natToString n).length ≤ 4 := by
  have := natToStringAux_length 4 n (by omega) (by norm_num; omega)
  simpa [natToString, String.length] using this

theorem natToStringAux_digits (fuel : Nat) :
    ∀ n c, c ∈ natToStringAux fuel n → c.isDigit = true := by
  induction fuel with
  | zero => intro n c hc; simp [natToStringAux] at hc
  | succ fuel ih =>
      intro n c hc
      by_cases hn : n < 10
      · simp only [natToStringAux, if_pos hn, List.mem_singleton] at hc
        subst hc
        interval_cases n <;> decide
      · simp only [natToStringAux, if_neg hn, List.mem_append, List.mem_singleton] at hc
        rcases hc with hc | hc
        · exact ih _ _ hc
        · subst hc
          have : n % 10 < 10 := Nat.mod_lt _ (by omega)
          interval_cases h : n % 10 <;> simp_all

theorem leftPad_length (s : String) (len : Nat) (ch : Char) (h : s.length ≤ len) :
    (leftPad s len ch).length = len := by
  simp only [leftPad, String.length_append, String.length_mk, List.length_replicate]
  omega

theorem leftPad_digits (s : String) (len : Nat)
    (h : ∀ c ∈ s.data, c.isDigit = true) :
    ∀ c ∈ (leftPad s len '0').data, c.isDigit = true := by
  intro c hc
  simp only [leftPad, String.data_append] at hc
  rw [List.mem_append] at hc
  rcases hc with hc | hc
  · have := List.eq_of_mem_replicate hc
    subst this
    decide
  · exact h c hc

/-! ### Leaf resolution lemmas -/

theorem head?_filter_eq_find? {α : Type} (p : α → Bool) (l : List α) :
    (l.filter p).head? = l.find? p := by
  induction l with
  | nil => rfl
  | cons a l ih =>
      by_cases h : p a
      · simp [List.filter_cons, h]
      · simp [List.filter_cons, h, ih]

theorem findExtendingLeafType_abstract_iff (mm : List ClassDecl) (A c : ClassDecl)
    (h : A.isAbstractFlag = true) :
    findExtendingLeafType mm A = .ok c ↔ mm.find? (isContenderFor A) = some c := by
  rw [← head?_filter_eq_find?]
  simp only [findExtendingLeafType, if_pos h]
  cases hf : mm.filter (isContenderFor A) with
  | nil => simp
  | cons c0 tl => simp

theorem findExtendingLeafType_concrete (mm : List ClassDecl) (c : ClassDecl)
    (h : c.isAbstractFlag = false) : findExtendingLeafType mm c = .ok c := by
  simp [findExtendingLeafType, h]

theorem findExtendingLeafType_no_contender (mm : List ClassDecl) (A : ClassDecl)
    (h : A.isAbstractFlag = true)
    (hnone : ∀ d ∈ mm, isContenderFor A d = false) :
    findExtendingLeafType mm A = .error (noConcreteSubtypeMsg (fqnOf A)) := by
  have hfil : mm.filter (isContenderFor A) = [] :=
    List.filter_eq_nil_iff.mpr (by intro a ha; simp [hnone a ha])
  simp only [findExtendingLeafType, if_pos h, hfil]

/-! ### Stack balance machinery

`AcceptPops accept` says the continuation standing for
`classDeclaration.accept` consumes exactly the instance pushed on top of the
stack.  Every layer of the visitor preserves the remaining stack. -/

def AcceptPops (accept : ClassDecl → GenState → Except String (Value × GenState)) : Prop :=
  ∀ cd st v st' x rest, st.stack = x :: rest → accept cd st = .ok (v, st') →
    st'.stack = rest

theorem relLoop_stack (p : Params) (idName ns ty : String) :
    ∀ (i : Nat) (st : GenState) (rs : List Value) (st' : GenState),
      relLoop p idName ns ty i st = .ok (rs, st') → st'.stack = st.stack := by
  intro i
  induction i with
  | zero =>
      intro st rs st' h
      simp only [relLoop] at h
      cases h
      rfl
  | succ i ih =>
      intro st rs st' h
      simp only [relLoop, drawIdx] at h
      cases hnr : newRelationship p.modelManager ns ty
          (idName ++ ":" ++ idxString (p.rand st.k)) with
      | error e =>
          simp only [hnr] at h
          exact Except.noConfusion h
      | ok r =>
          simp only [hnr] at h
          cases hrec : relLoop p idName ns ty i { st with k := st.k + 1 } with
          | error e =>
              simp only [hrec] at h
              exact Except.noConfusion h
          | ok pr =>
              obtain ⟨rs2, st2⟩ := pr
              simp only [hrec] at h
              cases h
              exact ih { st with k := st.k + 1 } rs2 st' hrec

theorem visitRelationshipDeclaration_stack (rd : Property) (p : Params)
    (st : GenState) (v : Value) (st' : GenState)
    (h : visitRelationshipDeclaration rd p st = .ok (v, st')) :
    st'.stack = st.stack := by
  cases hT : getType p.modelManager rd.fqTypeName with
  | none => simp [visitRelationshipDeclaration, hT] at h
  | some classDeclaration =>
      simp only [visitRelationshipDeclaration, hT] at h
      by_cases ha : rd.isArray
      · simp only [ha, if_true] at h
        cases hl : relLoop p classDeclaration.identifierFieldName classDeclaration.ns
            classDeclaration.name 3 st with
        | error e =>
            simp only [hl] at h
            exact Except.noConfusion h
        | ok pr =>
            obtain ⟨rs, st2⟩ := pr
            simp only [hl] at h
            cases h
            exact relLoop_stack _ _ _ _ _ _ _ _ hl
      · simp only [ha, if_false, Bool.false_eq_true, drawIdx] at h
        cases hnr : newRelationship p.modelManager classDeclaration.ns
            classDeclaration.name
            (classDeclaration.identifierFieldName ++ ":" ++ idxString (p.rand st.k)) with
        | error e =>
            simp only [hnr] at h
            exact Except.noConfusion h
        | ok r =>
            simp only [hnr] at h
            cases h
            rfl

theorem getFieldValueF_stack
    (accept : ClassDecl → GenState → Except String (Value × GenState))
    (hacc : AcceptPops accept) (f : Property) (p : Params) (st : GenState)
    (v : Value) (st' : GenState)
    (h : getFieldValueF accept f p st = .ok (v, st')) : st'.stack = st.stack := by
  simp only [getFieldValueF] at h
  by_cases hp : isPrimitiveType f.fqTypeName
  · simp only [hp, if_true] at h
    cases h
    rfl
  · simp only [hp, Bool.false_eq_true, if_false] at h
    cases hT : getType p.modelManager f.fqTypeName with
    | none =>
        simp only [hT] at h
        exact Except.noConfusion h
    | some cd0 =>
        simp only [hT] at h
        by_cases he : cd0.isEnum
        · simp only [he, if_true] at h
          cases h
          rfl
        · simp only [he, Bool.false_eq_true, if_false] at h
          cases hL : findExtendingLeafType p.modelManager cd0 with
          | error e =>
              simp only [hL] at h
              exact Except.noConfusion h
          | ok cd =>
              simp only [hL] at h
              by_cases hc : cd.isConceptFlag
              · simp only [hc, if_true] at h
                cases hN : newConcept p.modelManager cd.ns cd.name with
                | error e =>
                    simp only [hN] at h
                    exact Except.noConfusion h
                | ok concept =>
                    simp only [hN] at h
                    exact hacc cd _ v st' concept st.stack rfl h
              · simp only [hc, Bool.false_eq_true, if_false, drawIdx] at h
                cases hN : newResource p.modelManager cd.ns cd.name
                    (cd.identifierFieldName ++ ":" ++ idxString (p.rand st.k)) with
                | error e =>
                    simp only [hN] at h
                    exact Except.noConfusion h
                | ok resource =>
                    simp only [hN] at h
                    exact hacc cd _ v st' resource st.stack rfl h

theorem fieldLoopF_stack
    (accept : ClassDecl → GenState → Except String (Value × GenState))
    (hacc : AcceptPops accept) (f : Property) (p : Params) :
    ∀ (i : Nat) (st : GenState) (vs : List Value) (st' : GenState),
      fieldLoopF accept f p i st = .ok (vs, st') → st'.stack = st.stack := by
  intro i
  induction i with
  | zero =>
      intro st vs st' h
      simp only [fieldLoopF] at h
      cases h
      rfl
  | succ i ih =>
      intro st vs st' h
      simp only [fieldLoopF] at h
      cases h1 : getFieldValueF accept f p st with
      | error e =>
          simp only [h1] at h
          exact Except.noConfusion h
      | ok pr =>
          obtain ⟨v1, st1⟩ := pr
          simp only [h1] at h
          cases h2 : fieldLoopF accept f p i st1 with
          | error e =>
              simp only [h2] at h
              exact Except.noConfusion h
          | ok pr2 =>
              obtain ⟨vs2, st2⟩ := pr2
              simp only [h2] at h
              cases h
              rw [ih st1 vs2 st' h2]
              exact getFieldValueF_stack accept hacc f p st v1 st1 h1

theorem visitFieldF_stack
    (accept : ClassDecl → GenState → Except String (Value × GenState))
    (hacc : AcceptPops accept) (f : Property) (p : Params) (st : GenState)
    (v : Value) (st' : GenState)
    (h : visitFieldF accept f p st = .ok (v, st')) : st'.stack = st.stack := by
  simp only [visitFieldF] at h
  by_cases ha : f.isArray
  · simp only [ha, if_true] at h
    cases hl : fieldLoopF accept f p 3 st with
    | error e =>
        simp only [hl] at h
        exact Except.noConfusion h
    | ok pr =>
        obtain ⟨vs, st2⟩ := pr
        simp only [hl] at h
        cases h
        exact fieldLoopF_stack accept hacc f p 3 st vs st' hl
  · simp only [ha, Bool.false_eq_true, if_false] at h
    exact getFieldValueF_stack accept hacc f p st v st' h

theorem acceptPropertyF_stack
    (accept : ClassDecl → GenState → Except String (Value × GenState))
    (hacc : AcceptPops accept) (prop : Property) (p : Params) (st : GenState)
    (v : Value) (st' : GenState)
    (h : acceptPropertyF accept prop p st = .ok (v, st')) : st'.stack = st.stack := by
  simp only [acceptPropertyF] at h
  by_cases hr : prop.isRelationship
  · simp only [hr, if_true] at h
    exact visitRelationshipDeclaration_stack prop p st v st' h
  · simp only [hr, Bool.false_eq_true, if_false] at h
    exact visitFieldF_stack accept hacc prop p st v st' h

theorem processPropsF_stack
    (accept : ClassDecl → GenState → Except String (Value × GenState))
    (hacc : AcceptPops accept) (p : Params) :
    ∀ (props : List Property) (obj : Value) (st : GenState) (obj' : Value)
      (st' : GenState),
      processPropsF accept p props obj st = .ok (obj', st') → st'.stack = st.stack := by
  intro props
  induction props with
  | nil =>
      intro obj st obj' st' h
      simp only [processPropsF] at h
      cases h
      rfl
  | cons prop rest ih =>
      intro obj st obj' st' h
      simp only [processPropsF] at h
      by_cases hn : isNull (getProp obj prop.name)
      · simp only [hn, if_true] at h
        cases h1 : acceptPropertyF accept prop p st with
        | error e =>
            simp only [h1] at h
            exact Except.noConfusion h
        | ok pr =>
            obtain ⟨v1, st1⟩ := pr
            simp only [h1] at h
            rw [ih _ _ _ _ h]
            exact acceptPropertyF_stack accept hacc prop p st v1 st1 h1
      · simp only [hn, Bool.false_eq_true, if_false] at h
        exact ih _ _ _ _ h

theorem visitClassDeclarationF_pops
    (accept : ClassDecl → GenState → Except String (Value × GenState))
    (hacc : AcceptPops accept) (cd : ClassDecl) (p : Params) (st : GenState)
    (v : Value) (st' : GenState) (x : Value) (rest : List Value)
    (hs : st.stack = x :: rest)
    (h : visitClassDeclarationF accept cd p st = .ok (v, st')) : st'.stack = rest := by
  simp only [visitClassDeclarationF, hs] at h
  have := processPropsF_stack accept hacc p cd.properties x { st with stack := rest } v st' h
  simpa using this

theorem acceptPops_visitClassDeclaration (p : Params) :
    ∀ fuel : Nat, AcceptPops (fun cd st => visitClassDeclaration p fuel cd st) := by
  intro fuel
  induction fuel with
  | zero =>
      intro cd st v st' x rest hs h
      simp only [visitClassDeclaration] at h
      exact Except.noConfusion h
  | succ fuel ih =>
      intro cd st v st' x rest hs h
      simp only [visitClassDeclaration] at h
      exact visitClassDeclarationF_pops _ ih cd p st v st' x rest hs h

/-! ### Idempotence lemmas -/

theorem processPropsF_skip_all
    (accept : ClassDecl → GenState → Except String (Value × GenState)) (p : Params) :
    ∀ (props : List Property) (obj : Value) (st : GenState),
      (∀ prop ∈ props, isNull (getProp obj prop.name) = false) →
      processPropsF accept p props obj st = .ok (obj, st) := by
  intro props
  induction props with
  | nil => intro obj st _; rfl
  | cons prop rest ih =>
      intro obj st hall
      have h1 : isNull (getProp obj prop.name) = false := hall prop (by simp)
      simp only [processPropsF, h1, Bool.false_eq_true, if_false]
      exact ih obj st (fun q hq => hall q (by simp [hq]))

theorem processPropsF_preserve
    (accept : ClassDecl → GenState → Except String (Value × GenState)) (p : Params) :
    ∀ (props : List Property) (obj : Value) (st : GenState) (obj' : Value)
      (st' : GenState) (name : String),
      isNull (getProp obj name) = false →
      processPropsF accept p props obj st = .ok (obj', st') →
      getProp obj' name = getProp obj name := by
  intro props
  induction props with
  | nil =>
      intro obj st obj' st' name _ h
      simp only [processPropsF] at h
      cases h
      rfl
  | cons prop rest ih =>
      intro obj st obj' st' name hnn h
      simp only [processPropsF] at h
      by_cases hn : isNull (getProp obj prop.name)
      · have hne : prop.name ≠ name := by
          intro he
          rw [he] at hn
          rw [hnn] at hn
          cases hn
        simp only [hn, if_true] at h
        cases h1 : acceptPropertyF accept prop p st with
        | error e =>
            simp only [h1] at h
            exact Except.noConfusion h
        | ok pr =>
            obtain ⟨v1, st1⟩ := pr
            simp only [h1] at h
            have hpres : getProp (setProp obj prop.name v1) name = getProp obj name :=
              getProp_setProp_other obj prop.name name v1 (Ne.symm hne)
            rw [ih _ _ _ _ name (by rw [hpres]; exact hnn) h]
            exact hpres
      · simp only [hn, Bool.false_eq_true, if_false] at h
        exact ih _ _ _ _ name hnn h

/-! ### Lemmas for relationship-only classes (no by-value recursion) -/

theorem getType_fqn_self (mm : List ClassDecl) (key : String) (C : ClassDecl)
    (h : getType mm key = some C) : getType mm (fqnOf C) = some C := by
  have h' : mm.find? (fun c => fqnOf c == key) = some C := h
  have hb := List.find?_some h'
  have he : fqnOf C = key := eq_of_beq (by simpa using hb)
  rw [getType, he]
  exact h

theorem newRelationship_ok (mm : List ClassDecl) (key : String) (C : ClassDecl)
    (id : String) (h : getType mm key = some C) :
    newRelationship mm C.ns C.name id = .ok (.vrelationship C.ns C.name id) := by
  have h2 : getType mm (C.ns ++ "." ++ C.name) = some C := getType_fqn_self mm key C h
  simp only [newRelationship, h2]

theorem relLoop_ok (p : Params) (key : String) (C : ClassDecl) (idName : String)
    (h : getType p.modelManager key = some C) :
    ∀ (i : Nat) (st : GenState), ∃ rs st',
      relLoop p idName C.ns C.name i st = .ok (rs, st') := by
  intro i
  induction i with
  | zero => intro st; exact ⟨[], st, rfl⟩
  | succ i ih =>
      intro st
      obtain ⟨rs, st', hrec⟩ := ih { st with k := st.k + 1 }
      refine ⟨.vrelationship C.ns C.name (idName ++ ":" ++ idxString (p.rand st.k)) :: rs,
        st', ?_⟩
      simp only [relLoop, drawIdx,
        newRelationship_ok p.modelManager key C
          (idName ++ ":" ++ idxString (p.rand st.k)) h, hrec]

theorem visitRelationshipDeclaration_ok (rd : Property) (p : Params) (st : GenState)
    (C : ClassDecl) (h : getType p.modelManager rd.fqTypeName = some C) :
    ∃ v st', visitRelationshipDeclaration rd p st = .ok (v, st') := by
  by_cases ha : rd.isArray
  · obtain ⟨rs, st', hl⟩ := relLoop_ok p rd.fqTypeName C C.identifierFieldName h 3 st
    exact ⟨.varr rs, st', by simp only [visitRelationshipDeclaration, h, ha, if_true, hl]⟩
  · refine ⟨.vrelationship C.ns C.name
      (C.identifierFieldName ++ ":" ++ idxString (p.rand st.k)),
      { st with k := st.k + 1 }, ?_⟩
    simp only [visitRelationshipDeclaration, h, ha, Bool.false_eq_true, if_false, drawIdx,
      newRelationship_ok p.modelManager rd.fqTypeName C
        (C.identifierFieldName ++ ":" ++ idxString (p.rand st.k)) h]

theorem getFieldValueF_prim
    (accept : ClassDecl → GenState → Except String (Value × GenState))
    (f : Property) (p : Params) (st : GenState)
    (hp : isPrimitiveType f.fqTypeName = true) :
    getFieldValueF accept f p st = .ok (primValue p.valueGenerator f.fqTypeName, st) := by
  simp only [getFieldValueF, hp, if_true]

theorem fieldLoopF_prim_ok
    (accept : ClassDecl → GenState → Except String (Value × GenState))
    (f : Property) (p : Params) (hp : isPrimitiveType f.fqTypeName = true) :
    ∀ (i : Nat) (st : GenState), ∃ vs,
      fieldLoopF accept f p i st = .ok (vs, st) := by
  intro i
  induction i with
  | zero => intro st; exact ⟨[], rfl⟩
  | succ i ih =>
      intro st
      obtain ⟨vs, hrec⟩ := ih st
      refine ⟨primValue p.valueGenerator f.fqTypeName :: vs, ?_⟩
      simp only [fieldLoopF, getFieldValueF_prim accept f p st hp, hrec]

theorem acceptPropertyF_ok
    (accept : ClassDecl → GenState → Except String (Value × GenState))
    (prop : Property) (p : Params) (st : GenState)
    (hp : (prop.isRelationship = true ∧
            (getType p.modelManager prop.fqTypeName).isSome = true) ∨
          (prop.isRelationship = false ∧ isPrimitiveType prop.fqTypeName = true)) :
    ∃ v st', acceptPropertyF accept prop p st = .ok (v, st') := by
  rcases hp with ⟨hrel, hsome⟩ | ⟨hrel, hprim⟩
  · obtain ⟨C, hC⟩ := Option.isSome_iff_exists.mp hsome
    obtain ⟨v, st', hv⟩ := visitRelationshipDeclaration_ok prop p st C hC
    exact ⟨v, st', by simp only [acceptPropertyF, hrel, if_true, hv]⟩
  · by_cases ha : prop.isArray
    · obtain ⟨vs, hl⟩ := fieldLoopF_prim_ok accept prop p hprim 3 st
      refine ⟨.varr vs, st, ?_⟩
      simp only [acceptPropertyF, hrel, Bool.false_eq_true, if_false, visitFieldF, ha,
        if_true, hl]
    · refine ⟨primValue p.valueGenerator prop.fqTypeName, st, ?_⟩
      simp only [acceptPropertyF, hrel, Bool.false_eq_true, if_false, visitFieldF, ha,
        if_false, getFieldValueF_prim accept prop p st hprim]

theorem acceptPropertyF_accept_irrel
    (accept accept' : ClassDecl → GenState → Except String (Value × GenState))
    (prop : Property) (p : Params) (st : GenState)
    (hp : prop.isRelationship = true ∨ isPrimitiveType prop.fqTypeName = true) :
    acceptPropertyF accept prop p st = acceptPropertyF accept' prop p st := by
  rcases hp with hrel | hprim
  · simp only [acceptPropertyF, hrel, if_true]
  · by_cases hrel : prop.isRelationship
    · simp only [acceptPropertyF, hrel, if_true]
    · simp only [acceptPropertyF, hrel, Bool.false_eq_true, if_false, visitFieldF]
      by_cases ha : prop.isArray
      · simp only [ha, if_true]
        have hloop : ∀ (i : Nat) (st2 : GenState),
            fieldLoopF accept prop p i st2 = fieldLoopF accept' prop p i st2 := by
          intro i
          induction i with
          | zero => intro st2; rfl
          | succ i ih =>
              intro st2
              simp only [fieldLoopF, getFieldValueF_prim accept prop p st2 hprim,
                getFieldValueF_prim accept' prop p st2 hprim, ih st2]
        rw [hloop 3 st]
      · simp only [ha, Bool.false_eq_true, if_false,
          getFieldValueF_prim accept prop p st hprim,
          getFieldValueF_prim accept' prop p st hprim]

theorem processPropsF_accept_irrel
    (accept accept' : ClassDecl → GenState → Except String (Value × GenState))
    (p : Params) :
    ∀ (props : List Property) (obj : Value) (st : GenState),
      (∀ prop ∈ props, prop.isRelationship = true ∨ isPrimitiveType prop.fqTypeName = true) →
      processPropsF accept p props obj st = processPropsF accept' p props obj st := by
  intro props
  induction props with
  | nil => intro obj st _; rfl
  | cons prop rest ih =>
      intro obj st hall
      have h1 := acceptPropertyF_accept_irrel accept accept' prop p st (hall prop (by simp))
      have hrest : ∀ q ∈ rest, q.isRelationship = true ∨ isPrimitiveType q.fqTypeName = true :=
        fun q hq => hall q (by simp [hq])
      by_cases hn : isNull (getProp obj prop.name)
      · simp only [processPropsF, hn, if_true, h1]
        cases h2 : acceptPropertyF accept' prop p st with
        | error e => rfl
        | ok pr => exact ih (setProp obj prop.name pr.1) pr.2 hrest
      · simp only [processPropsF, hn, Bool.false_eq_true, if_false]
        exact ih obj st hrest

theorem processPropsF_rel_prim_ok
    (accept : ClassDecl → GenState → Except String (Value × GenState)) (p : Params) :
    ∀ (props : List Property) (obj : Value) (st : GenState),
      (∀ prop ∈ props, (prop.isRelationship = true ∧
          (getType p.modelManager prop.fqTypeName).isSome = true) ∨
        (prop.isRelationship = false ∧ isPrimitiveType prop.fqTypeName = true)) →
      ∃ obj' st', processPropsF accept p props obj st = .ok (obj', st') := by
  intro props
  induction props with
  | nil => intro obj st _; exact ⟨obj, st, rfl⟩
  | cons prop rest ih =>
      intro obj st hall
      have hrest : ∀ q ∈ rest, (q.isRelationship = true ∧
          (getType p.modelManager q.fqTypeName).isSome = true) ∨
          (q.isRelationship = false ∧ isPrimitiveType q.fqTypeName = true) :=
        fun q hq => hall q (by simp [hq])
      by_cases hn : isNull (getProp obj prop.name)
      · obtain ⟨v, st1, h1⟩ := acceptPropertyF_ok accept prop p st (hall prop (by simp))
        obtain ⟨obj', st', h2⟩ := ih (setProp obj prop.name v) st1 hrest
        exact ⟨obj', st', by simp only [processPropsF, hn, if_true, h1, h2]⟩
      · obtain ⟨obj', st', h2⟩ := ih obj st hrest
        exact ⟨obj', st', by
          simp only [processPropsF, hn, Bool.false_eq_true, if_false, h2]⟩

theorem processPropsF_tracks_relationship
    (accept : ClassDecl → GenState → Except String (Value × GenState)) (p : Params)
    (r : Property) (B : ClassDecl) (hrel : r.isRelationship = true)
    (hsingle : r.isArray = false)
    (hB : getType p.modelManager r.fqTypeName = some B) :
    ∀ (props : List Property) (obj : Value) (st : GenState) (obj' : Value)
      (st' : GenState),
      (props.map Property.name).Nodup → r ∈ props →
      isNull (getProp obj r.name) = true → hasProps obj = true →
      processPropsF accept p props obj st = .ok (obj', st') →
      ∃ id, getProp obj' r.name = some (.vrelationship B.ns B.name id) := by
  intro props
  induction props with
  | nil => intro obj st obj' st' _ hmem; cases hmem
  | cons prop rest ih =>
      intro obj st obj' st' hnodup hmem hnull hobj h
      simp only [List.map_cons, List.nodup_cons] at hnodup
      rcases List.mem_cons.mp hmem with heq | hmemrest
      · subst heq
        simp only [processPropsF, hnull, if_true] at h
        have hrd : visitRelationshipDeclaration r p st =
            .ok (.vrelationship B.ns B.name
              (B.identifierFieldName ++ ":" ++ idxString (p.rand st.k)),
              { st with k := st.k + 1 }) := by
          simp only [visitRelationshipDeclaration, hB, hsingle, Bool.false_eq_true,
            if_false, drawIdx,
            newRelationship_ok p.modelManager r.fqTypeName B
              (B.identifierFieldName ++ ":" ++ idxString (p.rand st.k)) hB]
        simp only [acceptPropertyF, hrel, if_true, hrd] at h
        set rel : Value := .vrelationship B.ns B.name
          (B.identifierFieldName ++ ":" ++ idxString (p.rand st.k)) with hrelv
        have hset : getProp (setProp obj r.name rel) r.name = some rel :=
          getProp_setProp_same obj r.name rel hobj
        have hnn : isNull (getProp (setProp obj r.name rel) r.name) = false := by
          rw [hset, hrelv]
          rfl
        have := processPropsF_preserve accept p rest (setProp obj r.name rel)
          { st with k := st.k + 1 } obj' st' r.name hnn h
        exact ⟨B.identifierFieldName ++ ":" ++ idxString (p.rand st.k), by
          rw [this, hset]⟩
      · have hne : prop.name ≠ r.name := by
          intro he
          exact hnodup.1 (he ▸ List.mem_map_of_mem Property.name hmemrest)
        simp only [processPropsF] at h
        by_cases hn : isNull (getProp obj prop.name)
        · simp only [hn, if_true] at h
          cases h1 : acceptPropertyF accept prop p st with
          | error e =>
              simp only [h1] at h
              exact Except.noConfusion h
          | ok pr =>
              obtain ⟨v1, st1⟩ := pr
              simp only [h1] at h
              refine ih (setProp obj prop.name v1) st1 obj' st' hnodup.2 hmemrest ?_ ?_ h
              · rw [getProp_setProp_other obj prop.name r.name v1 (Ne.symm hne)]
                exact hnull
              · rw [hasProps_setProp]
                exact hobj
        · simp only [hn, Bool.false_eq_true, if_false] at h
          exact ih obj st obj' st' hnodup.2 hmemrest hnull hobj h

/-! ## Claim theorems -/

/-- C4: Leaf resolution for an abstract type enumerates all class
declarations known to the schema and selects the first one, in schema
enumeration order, whose direct supertype equals the abstract type's
fully-qualified name and which is itself non-abstract; deeper (non-direct)
concrete descendants are never selected. -/
theorem leaf_resolution_first_direct_concrete (mm : List ClassDecl)
    (A c : ClassDecl) (h : A.isAbstractFlag = true) :
    (findExtendingLeafType mm A = .ok c ↔
      mm.find? (isContenderFor A) = some c) ∧
    (findExtendingLeafType mm A = .ok c →
      c ∈ mm ∧ c.isAbstractFlag = false ∧ c.superType = some (fqnOf A)) := by
  refine ⟨findExtendingLeafType_abstract_iff mm A c h, ?_⟩
  intro hok
  have hfind : mm.find? (isContenderFor A) = some c :=
    (findExtendingLeafType_abstract_iff mm A c h).mp hok
  have hmem : c ∈ mm := List.mem_of_find?_eq_some hfind
  have hpred : isContenderFor A c = true := List.find?_some hfind
  simp only [isContenderFor, Bool.and_eq_true, Bool.not_eq_true'] at hpred
  obtain ⟨habs, hsup⟩ := hpred
  refine ⟨hmem, habs, ?_⟩
  cases hs : c.superType with
  | none => rw [hs] at hsup; cases hsup
  | some s =>
      rw [hs] at hsup
      have : s = fqnOf A := eq_of_beq hsup
      rw [this]

/-- C4 witness: on a schema listing the abstract `n.A0`, then a deeper
concrete descendant `n.D0` (supertype `n.C0`), then the direct concrete child
`n.C0`, leaf resolution returns `n.C0`, the first direct concrete child in
enumeration order, not the deeper descendant. -/
theorem leaf_resolution_first_direct_concrete_witness :
    wAbsA.isAbstractFlag = true ∧
    (findExtendingLeafType wMm4 wAbsA = .ok wDirect ↔
      wMm4.find? (isContenderFor wAbsA) = some wDirect) ∧
    (findExtendingLeafType wMm4 wAbsA = .ok wDirect →
      wDirect ∈ wMm4 ∧ wDirect.isAbstractFlag = false ∧
        wDirect.superType = some (fqnOf wAbsA)) ∧
    findExtendingLeafType wMm4 wAbsA = .ok wDirect :=
  ⟨rfl,
   (leaf_resolution_first_direct_concrete wMm4 wAbsA wDirect rfl).1,
   (leaf_resolution_first_direct_concrete wMm4 wAbsA wDirect rfl).2,
   rfl⟩

/-- C10: Leaf resolution is the identity on concrete types — the check on
line 127 reads the method reference `classDeclaration.isAbstract` without
invoking it (truthy for every class declaration), so `findExtendingLeafType`
runs for every non-enum, non-primitive class-typed field (this is embedded in
`getFieldValueF` as an unconditional call); for a non-abstract input it
returns the same declaration unchanged, so `getFieldValueF` agrees everywhere
with `getFieldValueFChecked`, the variant that guards leaf resolution by the
invoked abstract flag — generation for concrete class-typed fields is
unaffected. -/
theorem leaf_resolution_identity_on_concrete :
    (∀ (mm : List ClassDecl) (c : ClassDecl), c.isAbstractFlag = false →
      findExtendingLeafType mm c = .ok c) ∧
    (∀ (accept : ClassDecl → GenState → Except String (Value × GenState))
      (f : Property) (p : Params) (st : GenState),
      getFieldValueF accept f p st = getFieldValueFChecked accept f p st) := by
  constructor
  · intro mm c h
    exact findExtendingLeafType_concrete mm c h
  · intro accept f p st
    simp only [getFieldValueF, getFieldValueFChecked]
    by_cases hp : isPrimitiveType f.fqTypeName
    · simp only [hp, if_true]
    · simp only [hp, Bool.false_eq_true, if_false]
      cases hT : getType p.modelManager f.fqTypeName with
      | none => rfl
      | some cd0 =>
          by_cases he : cd0.isEnum
          · simp only [he, if_true]
          · simp only [he, Bool.false_eq_true, if_false]
            by_cases hA : cd0.isAbstractFlag
            · simp only [hA, if_true]
            · simp only [hA, Bool.false_eq_true, if_false,
                findExtendingLeafType_concrete p.modelManager cd0 (by simpa using hA)]

/-- C10 witness: the concrete declaration `n.C0` resolves to itself, and the
two readings of `getFieldValue` coincide on a concrete field lookup. -/
theorem leaf_resolution_identity_on_concrete_witness :
    wDirect.isAbstractFlag = false ∧
    findExtendingLeafType wMm4 wDirect = .ok wDirect :=
  ⟨rfl, leaf_resolution_identity_on_concrete.1 wMm4 wDirect rfl⟩

/-- C6: For every enum-typed property, the generated value is the name (a
plain string, not a structured object) of one element of that enum's declared
literal set, assuming the value generator's `getEnum` returns a member of the
set passed to it. -/
theorem enum_field_value_is_literal_name (p : Params) (fuel : Nat)
    (f : Property) (st : GenState) (E : ClassDecl)
    (hprim : isPrimitiveType f.fqTypeName = false)
    (hT : getType p.modelManager f.fqTypeName = some E)
    (henum : E.isEnum = true)
    (hg : p.valueGenerator.getEnum E.properties ∈ E.properties) :
    getFieldValue p fuel f st =
      .ok (.vstr (p.valueGenerator.getEnum E.properties).name, st) ∧
    (p.valueGenerator.getEnum E.properties).name ∈ E.properties.map Property.name := by
  constructor
  · simp only [getFieldValue, getFieldValueF, hprim, Bool.false_eq_true, if_false, hT,
      henum, if_true]
  · exact List.mem_map_of_mem Property.name hg

/-- C6 witness: over a schema with the two-literal enum `n.Color` and the
head-picking sample generator, an enum-typed field generates the string
`"RED"`, a member of the literal set. -/
theorem enum_field_value_is_literal_name_witness :
    isPrimitiveType "n.Color" = false ∧
    getType wParams6.modelManager "n.Color" = some wEnum ∧
    wEnum.isEnum = true ∧
    wParams6.valueGenerator.getEnum wEnum.properties ∈ wEnum.properties ∧
    getFieldValue wParams6 1 ⟨"c", "n.Color", false, false⟩ ⟨[], 0⟩ =
      .ok (.vstr (wParams6.valueGenerator.getEnum wEnum.properties).name, ⟨[], 0⟩) ∧
    (wParams6.valueGenerator.getEnum wEnum.properties).name ∈
      wEnum.properties.map Property.name :=
  ⟨rfl, rfl, rfl, by decide,
   (enum_field_value_is_literal_name wParams6 1 ⟨"c", "n.Color", false, false⟩ ⟨[], 0⟩
      wEnum rfl rfl rfl (by decide)).1,
   (enum_field_value_is_literal_name wParams6 1 ⟨"c", "n.Color", false, false⟩ ⟨[], 0⟩
      wEnum rfl rfl rfl (by decide)).2⟩

/-- C7: For every single-valued primitive-typed field, generation calls
exactly the value generator method matching the type tag — `DateTime` to
`getDateTime`, `Integer` to `getInteger`, `Long` to `getLong`, `Double` to
`getDouble`, `Boolean` to `getBoolean`, and any other primitive type to
`getString` — and returns its result unchanged (state included). -/
theorem primitive_dispatch_matches_type_tag (p : Params) (fuel : Nat)
    (f : Property) (st : GenState) (hsingle : f.isArray = false) :
    (f.fqTypeName = "DateTime" →
      visitField p fuel f st = .ok (p.valueGenerator.getDateTime, st)) ∧
    (f.fqTypeName = "Integer" →
      visitField p fuel f st = .ok (p.valueGenerator.getInteger, st)) ∧
    (f.fqTypeName = "Long" →
      visitField p fuel f st = .ok (p.valueGenerator.getLong, st)) ∧
    (f.fqTypeName = "Double" →
      visitField p fuel f st = .ok (p.valueGenerator.getDouble, st)) ∧
    (f.fqTypeName = "Boolean" →
      visitField p fuel f st = .ok (p.valueGenerator.getBoolean, st)) ∧
    (isPrimitiveType f.fqTypeName = true →
      f.fqTypeName ≠ "DateTime" → f.fqTypeName ≠ "Integer" →
      f.fqTypeName ≠ "Long" → f.fqTypeName ≠ "Double" → f.fqTypeName ≠ "Boolean" →
      visitField p fuel f st = .ok (p.valueGenerator.getString, st)) := by
  have hsf : ∀ v : Value,
      primValue p.valueGenerator f.fqTypeName = v →
      isPrimitiveType f.fqTypeName = true →
      visitField p fuel f st = .ok (v, st) := by
    intro v hv hprim
    simp only [visitField, visitFieldF, hsingle, Bool.false_eq_true, if_false,
      getFieldValueF, hprim, if_true, hv]
  refine ⟨?_, ?_, ?_, ?_, ?_, ?_⟩
  · intro ht
    exact hsf _ (by rw [ht]; rfl) (by rw [ht]; rfl)
  · intro ht
    exact hsf _ (by rw [ht]; rfl) (by rw [ht]; rfl)
  · intro ht
    exact hsf _ (by rw [ht]; rfl) (by rw [ht]; rfl)
  · intro ht
    exact hsf _ (by rw [ht]; rfl) (by rw [ht]; rfl)
  · intro ht
    exact hsf _ (by rw [ht]; rfl) (by rw [ht]; rfl)
  · intro hprim h1 h2 h3 h4 h5
    have hstr : f.fqTypeName = "String" := by
      simp only [isPrimitiveType, Bool.or_eq_true, beq_iff_eq] at hprim
      tauto
    exact hsf _ (by rw [hstr]; rfl) hprim

/-- C7 witness: a single-valued `DateTime` field over the sample generator
returns exactly `getDateTime`'s value with the state unchanged. -/
theorem primitive_dispatch_matches_type_tag_witness :
    (⟨"when", "DateTime", false, false⟩ : Property).isArray = false ∧
    visitField wParamsAB 1 ⟨"when", "DateTime", false, false⟩ ⟨[], 0⟩ =
      .ok (wParamsAB.valueGenerator.getDateTime, ⟨[], 0⟩) :=
  ⟨rfl,
   (primitive_dispatch_matches_type_tag wParamsAB 1 ⟨"when", "DateTime", false, false⟩
      ⟨[], 0⟩ rfl).1 rfl⟩


/-- C5: If a field's type is an abstract class with zero non-abstract direct
subclasses in the schema, `generate` fails with an error naming that abstract
type's fully-qualified name, and the generation call aborts entirely with no
partial result returned (the error propagates; the result carries no
instance). -/
theorem abstract_without_concrete_subtype_fails (p : Params) (cd : ClassDecl)
    (f : Property) (rest : List Property) (inst : Value) (k fuel : Nat)
    (A : ClassDecl)
    (hcd : cd.properties = f :: rest)
    (hfield : f.isRelationship = false) (hsingle : f.isArray = false)
    (hprim : isPrimitiveType f.fqTypeName = false)
    (hT : getType p.modelManager f.fqTypeName = some A)
    (henum : A.isEnum = false) (habs : A.isAbstractFlag = true)
    (hnone : ∀ d ∈ p.modelManager, isContenderFor A d = false)
    (hnull : isNull (getProp inst f.name) = true) :
    generate p (fuel + 1) cd inst k = .error (noConcreteSubtypeMsg (fqnOf A)) ∧
    ∃ pre, noConcreteSubtypeMsg (fqnOf A) = pre ++ fqnOf A := by
  refine ⟨?_, "instancegenerator-newinstance-noconcreteclass: ", rfl⟩
  have hleaf := findExtendingLeafType_no_contender p.modelManager A habs hnone
  simp only [generate, visitClassDeclaration, visitClassDeclarationF, hcd,
    processPropsF, hnull, if_true, acceptPropertyF, hfield, Bool.false_eq_true,
    if_false, visitFieldF, hsingle, getFieldValueF, hprim, hT, henum, hleaf]

/-- C5 witness: a class whose only field has the childless abstract type
`n.E0` makes `generate` abort with the error naming `n.E0`. -/
theorem abstract_without_concrete_subtype_fails_witness :
    wHost.properties = [⟨"e", "n.E0", false, false⟩] ∧
    getType wParams5.modelManager "n.E0" = some wAbsE ∧
    (∀ d ∈ wParams5.modelManager, isContenderFor wAbsE d = false) ∧
    (generate wParams5 1 wHost wInstF 0 = .error (noConcreteSubtypeMsg (fqnOf wAbsE)) ∧
      ∃ pre, noConcreteSubtypeMsg (fqnOf wAbsE) = pre ++ fqnOf wAbsE) :=
  ⟨rfl, rfl, by decide,
   abstract_without_concrete_subtype_fails wParams5 wHost
     ⟨"e", "n.E0", false, false⟩ [] wInstF 0 0 wAbsE rfl rfl rfl rfl rfl rfl rfl
     (by decide) rfl⟩

/-- C8: Every identifier suffix synthesized for a generated resource or
relationship is the 4-character string obtained by left-padding with `'0'`
the decimal representation of an integer in `[0, 9999]`, for every output of
the random source in `[0, 1)`; a single relationship's identifier is exactly
`<identifierFieldName>:<suffix>`. -/
theorem identifier_suffix_four_digit_decimal (q : ℚ) (rd : Property)
    (p : Params) (st : GenState) (C : ClassDecl) (h0 : 0 ≤ q) (h1 : q < 1) :
    (∃ n : ℕ, n ≤ 9999 ∧ idxString q = leftPad (natToString n) 4 '0') ∧
    (idxString q).length = 4 ∧
    (∀ c ∈ (idxString q).data, c.isDigit = true) ∧
    (rd.isArray = false → getType p.modelManager rd.fqTypeName = some C →
      p.rand st.k = q →
      visitRelationshipDeclaration rd p st =
        .ok (.vrelationship C.ns C.name
          (C.identifierFieldName ++ ":" ++ idxString q), { st with k := st.k + 1 })) := by
  have hr : roundTimes9999 q = mathRound (q * 9999) := roundTimes9999_eq q
  have hn1 : 0 ≤ mathRound (q * 9999) := mathRound_nonneg_of_lt_one q h0
  have hn2 : mathRound (q * 9999) ≤ 9999 := mathRound_le_9999 q h1
  have hle : (roundTimes9999 q).toNat ≤ 9999 := by omega
  have hlen : (natToString (roundTimes9999 q).toNat).length ≤ 4 :=
    natToString_length_le_four _ hle
  refine ⟨⟨(roundTimes9999 q).toNat, hle, rfl⟩, ?_, ?_, ?_⟩
  · exact leftPad_length _ 4 '0' hlen
  · exact leftPad_digits _ 4
      (fun c hc => natToStringAux_digits _ _ c hc)
  · intro hsingle hT hq
    simp only [visitRelationshipDeclaration, hT, hsingle, Bool.false_eq_true,
      if_false, drawIdx, hq,
      newRelationship_ok p.modelManager rd.fqTypeName C
        (C.identifierFieldName ++ ":" ++ idxString q) hT]

/-- C8 witness: at the draw `q = 0` the suffix is `"0000"` — length 4, all
digits, the padded decimal form of `0 ≤ 9999` — and the generated single
relationship for `org.acme.B` gets the identifier `bId:0000`. -/
theorem identifier_suffix_four_digit_decimal_witness :
    (0 : ℚ) ≤ 0 ∧ (0 : ℚ) < 1 ∧
    ((∃ n : ℕ, n ≤ 9999 ∧ idxString 0 = leftPad (natToString n) 4 '0') ∧
     (idxString 0).length = 4 ∧
     (∀ c ∈ (idxString 0).data, c.isDigit = true) ∧
     ((⟨"b", "org.acme.B", false, true⟩ : Property).isArray = false →
       getType wParamsAB.modelManager
         (⟨"b", "org.acme.B", false, true⟩ : Property).fqTypeName = some wDeclB →
       wParamsAB.rand (⟨[], 0⟩ : GenState).k = 0 →
       visitRelationshipDeclaration ⟨"b", "org.acme.B", false, true⟩ wParamsAB ⟨[], 0⟩ =
         .ok (.vrelationship wDeclB.ns wDeclB.name
           (wDeclB.identifierFieldName ++ ":" ++ idxString 0), ⟨[], 1⟩))) :=
  ⟨le_refl 0, zero_lt_one,
   identifier_suffix_four_digit_decimal 0 ⟨"b", "org.acme.B", false, true⟩
     wParamsAB ⟨[], 0⟩ wDeclB (le_refl 0) zero_lt_one⟩

/-- C9: Stack balance — the visitor is entered with the instance to populate
on top of `parameters.stack`; each descent into a concept- or resource-typed
field pushes exactly one newly constructed instance which the following
`visitClassDeclaration` pops, so every successful `getFieldValue` /
`visitField` call leaves `parameters.stack` with exactly the height and
contents it had before the call, and `visitClassDeclaration` consumes exactly
the top of the stack. -/
theorem visitor_stack_balance (p : Params) (fuel : Nat) (f : Property)
    (cd : ClassDecl) (st : GenState) :
    (∀ v st', getFieldValue p fuel f st = .ok (v, st') → st'.stack = st.stack) ∧
    (∀ v st', visitField p fuel f st = .ok (v, st') → st'.stack = st.stack) ∧
    (∀ x rest v st', st.stack = x :: rest →
      visitClassDeclaration p fuel cd st = .ok (v, st') → st'.stack = rest) := by
  have hacc := acceptPops_visitClassDeclaration p fuel
  refine ⟨?_, ?_, ?_⟩
  · intro v st' h
    exact getFieldValueF_stack _ hacc f p st v st' h
  · intro v st' h
    exact visitFieldF_stack _ hacc f p st v st' h
  · intro x rest v st' hs h
    exact hacc cd st v st' x rest hs h

/-- C9 witness: over the `A`/`B` schema, a primitive field lookup with one
instance on the stack leaves the stack untouched, and visiting the class
declaration pops exactly that instance. -/
theorem visitor_stack_balance_witness :
    (getFieldValue wParamsAB 1 ⟨"aId", "String", false, false⟩ ⟨[wInstA], 0⟩ =
        .ok (.vstr "hello", ⟨[wInstA], 0⟩) ∧
      (⟨[wInstA], 0⟩ : GenState).stack = [wInstA]) ∧
    ((⟨[wInstA], 0⟩ : GenState).stack = wInstA :: [] ∧
      visitClassDeclaration wParamsAB 1 wDeclA ⟨[wInstA], 0⟩ =
        .ok (.vresource "org.acme" "A" "aId:0001"
          [("aId", .vstr "hello"), ("b", .vrelationship "org.acme" "B" "bId:0000")],
          ⟨[], 1⟩) ∧
      (⟨[], 1⟩ : GenState).stack = []) :=
  ⟨⟨rfl,
    (visitor_stack_balance wParamsAB 1 ⟨"aId", "String", false, false⟩ wDeclA
        ⟨[wInstA], 0⟩).1 (.vstr "hello") ⟨[wInstA], 0⟩ rfl⟩,
   ⟨rfl, rfl,
    (visitor_stack_balance wParamsAB 1 ⟨"aId", "String", false, false⟩ wDeclA
        ⟨[wInstA], 0⟩).2.2 wInstA [] _ ⟨[], 1⟩ rfl rfl⟩⟩


/-- C2: Generation is idempotent on populated fields — every property whose
value is non-null before the call keeps exactly that value, and re-invoking
`generate` on a fully populated instance performs no mutation (the instance
comes back unchanged and no random draw is consumed). -/
theorem generate_idempotent_on_populated (p : Params) (fuel : Nat)
    (cd : ClassDecl) (inst : Value) (k : Nat) :
    (∀ name out, generate p fuel cd inst k = .ok out →
      isNull (getProp inst name) = false →
      getProp out.1 name = getProp inst name) ∧
    (1 ≤ fuel → (∀ prop ∈ cd.properties, isNull (getProp inst prop.name) = false) →
      generate p fuel cd inst k = .ok (inst, ⟨[], k⟩)) := by
  constructor
  · intro name out h hnn
    cases fuel with
    | zero =>
        simp only [generate, visitClassDeclaration] at h
        exact Except.noConfusion h
    | succ f =>
        have e1 : generate p (f + 1) cd inst k =
            processPropsF (fun cd2 st2 => visitClassDeclaration p f cd2 st2) p
              cd.properties inst ⟨[], k⟩ := rfl
        rw [e1] at h
        obtain ⟨obj', st'⟩ := out
        exact processPropsF_preserve _ p cd.properties inst ⟨[], k⟩ obj' st' name hnn h
  · intro hfuel hall
    obtain ⟨f, rfl⟩ : ∃ f, fuel = f + 1 := ⟨fuel - 1, by omega⟩
    have e1 : generate p (f + 1) cd inst k =
        processPropsF (fun cd2 st2 => visitClassDeclaration p f cd2 st2) p
          cd.properties inst ⟨[], k⟩ := rfl
    rw [e1]
    exact processPropsF_skip_all _ p cd.properties inst ⟨[], k⟩ hall

/-- C2 witness: re-running generation on the fully populated `A` instance
returns it byte-for-byte unchanged with no random draw consumed. -/
theorem generate_idempotent_on_populated_witness :
    (∀ prop ∈ wDeclA.properties, isNull (getProp wInstAFull prop.name) = false) ∧
    generate wParamsAB 1 wDeclA wInstAFull 0 = .ok (wInstAFull, ⟨[], 0⟩) :=
  ⟨by decide,
   (generate_idempotent_on_populated wParamsAB 1 wDeclA wInstAFull 0).2
     (le_refl 1) (by decide)⟩

/-- C3: For every array-typed property — Field or RelationshipDeclaration —
the generated value is an ordered sequence of exactly 3 independently
generated elements: an array field's value is `[v1, v2, v3]` produced by
three sequential `getFieldValue` calls threading the state, and an array
relationship's value is three pointers each built from its own fresh random
draw. -/
theorem array_properties_have_three_elements (p : Params) (fuel : Nat)
    (f : Property) (st : GenState) (harr : f.isArray = true) :
    (∀ v st', visitField p fuel f st = .ok (v, st') →
      ∃ v1 s1 v2 s2 v3, getFieldValue p fuel f st = .ok (v1, s1) ∧
        getFieldValue p fuel f s1 = .ok (v2, s2) ∧
        getFieldValue p fuel f s2 = .ok (v3, st') ∧
        v = .varr [v1, v2, v3]) ∧
    (∀ v st' C, getType p.modelManager f.fqTypeName = some C →
      visitRelationshipDeclaration f p st = .ok (v, st') →
      v = .varr
        [.vrelationship C.ns C.name
          (C.identifierFieldName ++ ":" ++ idxString (p.rand st.k)),
         .vrelationship C.ns C.name
          (C.identifierFieldName ++ ":" ++ idxString (p.rand (st.k + 1))),
         .vrelationship C.ns C.name
          (C.identifierFieldName ++ ":" ++ idxString (p.rand (st.k + 2)))] ∧
        st' = { st with k := st.k + 3 }) := by
  constructor
  · intro v st' h
    have e1 : visitField p fuel f st =
        (match fieldLoopF (fun cd2 st2 => visitClassDeclaration p fuel cd2 st2) f p 3 st with
         | .error e => .error e
         | .ok (vs, st2) => .ok (.varr vs, st2)) := by
      simp only [visitField, visitFieldF, harr, if_true]
    have e2 : fieldLoopF (fun cd2 st2 => visitClassDeclaration p fuel cd2 st2) f p 3 st =
        (match getFieldValue p fuel f st with
         | .error e => .error e
         | .ok (v1, s1) =>
            match (match getFieldValue p fuel f s1 with
                   | .error e => .error e
                   | .ok (v2, s2) =>
                      match (match getFieldValue p fuel f s2 with
                             | .error e => .error e
                             | .ok (v3, s3) =>
                                .ok ([v3], s3) :
                              Except String (List Value × GenState)) with
                      | .error e => .error e
                      | .ok (vs, st2) => .ok (v2 :: vs, st2) :
                    Except String (List Value × GenState)) with
            | .error e => .error e
            | .ok (vs, st2) => .ok (v1 :: vs, st2)) := rfl
    rw [e1] at h
    cases h1 : getFieldValue p fuel f st with
    | error e =>
        simp only [e2, h1] at h
        exact Except.noConfusion h
    | ok pr1 =>
        obtain ⟨v1, s1⟩ := pr1
        cases h2 : getFieldValue p fuel f s1 with
        | error e =>
            simp only [e2, h1, h2] at h
            exact Except.noConfusion h
        | ok pr2 =>
            obtain ⟨v2, s2⟩ := pr2
            cases h3 : getFieldValue p fuel f s2 with
            | error e =>
                simp only [e2, h1, h2, h3] at h
                exact Except.noConfusion h
            | ok pr3 =>
                obtain ⟨v3, s3⟩ := pr3
                simp only [e2, h1, h2, h3] at h
                cases h
                exact ⟨v1, s1, v2, s2, v3, rfl, h2, h3, rfl⟩
  · intro v st' C hT h
    have hrel : ∀ (m : Nat),
        newRelationship p.modelManager C.ns C.name
          (C.identifierFieldName ++ ":" ++ idxString (p.rand m)) =
        .ok (.vrelationship C.ns C.name
          (C.identifierFieldName ++ ":" ++ idxString (p.rand m))) :=
      fun m => newRelationship_ok p.modelManager f.fqTypeName C _ hT
    have e1 : visitRelationshipDeclaration f p st =
        (match relLoop p C.identifierFieldName C.ns C.name 3 st with
         | .error e => .error e
         | .ok (rs, st2) => .ok (.varr rs, st2)) := by
      simp only [visitRelationshipDeclaration, hT, harr, if_true]
    have e2 : relLoop p C.identifierFieldName C.ns C.name 3 st =
        (match newRelationship p.modelManager C.ns C.name
            (C.identifierFieldName ++ ":" ++ idxString (p.rand st.k)) with
         | .error e => .error e
         | .ok r1 =>
            match (match newRelationship p.modelManager C.ns C.name
                (C.identifierFieldName ++ ":" ++ idxString (p.rand (st.k + 1))) with
              | .error e => .error e
              | .ok r2 =>
                 match (match newRelationship p.modelManager C.ns C.name
                     (C.identifierFieldName ++ ":" ++ idxString (p.rand (st.k + 1 + 1))) with
                   | .error e => .error e
                   | .ok r3 =>
                      .ok ([r3], { st with k := st.k + 1 + 1 + 1 }) :
                    Except String (List Value × GenState)) with
                 | .error e => .error e
                 | .ok (rs, st2) => .ok (r2 :: rs, st2) :
               Except String (List Value × GenState)) with
            | .error e => .error e
            | .ok (rs, st2) => .ok (r1 :: rs, st2)) := rfl
    rw [e1] at h
    simp only [e2, hrel st.k, hrel (st.k + 1), hrel (st.k + 1 + 1)] at h
    cases h
    refine ⟨?_, ?_⟩
    · have : st.k + 1 + 1 = st.k + 2 := by omega
      rw [this]
    · have : st.k + 1 + 1 + 1 = st.k + 3 := by omega
      rw [this]

/-- C3 witness: a `String` array field generates exactly the three-element
sequence of `getString` values, and an array relationship to `org.acme.B`
generates exactly three pointers, consuming three random draws. -/
theorem array_properties_have_three_elements_witness :
    (visitField wParamsAB 1 ⟨"tags", "String", true, false⟩ ⟨[], 0⟩ =
        .ok (.varr [.vstr "hello", .vstr "hello", .vstr "hello"], ⟨[], 0⟩) ∧
      (∃ v1 s1 v2 s2 v3,
        getFieldValue wParamsAB 1 ⟨"tags", "String", true, false⟩ ⟨[], 0⟩ =
          .ok (v1, s1) ∧
        getFieldValue wParamsAB 1 ⟨"tags", "String", true, false⟩ s1 = .ok (v2, s2) ∧
        getFieldValue wParamsAB 1 ⟨"tags", "String", true, false⟩ s2 =
          .ok (v3, ⟨[], 0⟩) ∧
        Value.varr [.vstr "hello", .vstr "hello", .vstr "hello"] =
          .varr [v1, v2, v3])) ∧
    (visitRelationshipDeclaration ⟨"bs", "org.acme.B", true, true⟩ wParamsAB ⟨[], 0⟩ =
        .ok (.varr [.vrelationship "org.acme" "B" "bId:0000",
          .vrelationship "org.acme" "B" "bId:0000",
          .vrelationship "org.acme" "B" "bId:0000"], ⟨[], 3⟩) ∧
      (Value.varr [.vrelationship "org.acme" "B" "bId:0000",
          .vrelationship "org.acme" "B" "bId:0000",
          .vrelationship "org.acme" "B" "bId:0000"] =
        .varr
          [.vrelationship wDeclB.ns wDeclB.name
            (wDeclB.identifierFieldName ++ ":" ++ idxString (wParamsAB.rand 0)),
           .vrelationship wDeclB.ns wDeclB.name
            (wDeclB.identifierFieldName ++ ":" ++ idxString (wParamsAB.rand 1)),
           .vrelationship wDeclB.ns wDeclB.name
            (wDeclB.identifierFieldName ++ ":" ++ idxString (wParamsAB.rand 2))] ∧
        (⟨[], 3⟩ : GenState) = { (⟨[], 0⟩ : GenState) with k := 3 })) :=
  ⟨⟨rfl,
    (array_properties_have_three_elements wParamsAB 1 ⟨"tags", "String", true, false⟩
        ⟨[], 0⟩ rfl).1 _ _ rfl⟩,
   ⟨rfl,
    (array_properties_have_three_elements wParamsAB 1 ⟨"bs", "org.acme.B", true, true⟩
        ⟨[], 0⟩ rfl).2 _ _ wDeclB rfl rfl⟩⟩

/-- C1: For relationship-typed properties generation constructs only a
`Relationship` pointer and never recurses into the referenced type — so for a
class `A` all of whose properties are relationship-typed (or primitive), in
particular when `A` and `B` reference each other only through
relationship-typed properties, `generate A` terminates (the result is the
same for every recursion budget) and yields an `A` instance whose
relationship property is a `Relationship {namespace, type = B, id}` pointer
with none of `B`'s own properties expanded (the pointer carries namespace,
type and identifier only). -/
theorem relationship_cycle_terminates (p : Params) (A B : ClassDecl)
    (r : Property) (inst : Value) (k : Nat)
    (hmem : r ∈ A.properties) (hrel : r.isRelationship = true)
    (hsingle : r.isArray = false)
    (hB : getType p.modelManager r.fqTypeName = some B)
    (hnodup : (A.properties.map Property.name).Nodup)
    (hprops : ∀ q ∈ A.properties,
      (q.isRelationship = true ∧ (getType p.modelManager q.fqTypeName).isSome = true) ∨
      (q.isRelationship = false ∧ isPrimitiveType q.fqTypeName = true))
    (hnull : isNull (getProp inst r.name) = true)
    (hobj : hasProps inst = true) :
    (∀ fuel, generate p (fuel + 1) A inst k = generate p 1 A inst k) ∧
    ∃ obj' st' id, generate p 1 A inst k = .ok (obj', st') ∧
      getProp obj' r.name = some (.vrelationship B.ns B.name id) := by
  have e2 : generate p 1 A inst k =
      processPropsF (fun cd2 st2 => visitClassDeclaration p 0 cd2 st2) p
        A.properties inst ⟨[], k⟩ := rfl
  constructor
  · intro fuel
    have e1 : generate p (fuel + 1) A inst k =
        processPropsF (fun cd2 st2 => visitClassDeclaration p fuel cd2 st2) p
          A.properties inst ⟨[], k⟩ := rfl
    rw [e1, e2]
    exact processPropsF_accept_irrel _ _ p A.properties inst ⟨[], k⟩
      (fun q hq => (hprops q hq).elim (fun hh => Or.inl hh.1) (fun hh => Or.inr hh.2))
  · obtain ⟨obj', st', hok⟩ :=
      processPropsF_rel_prim_ok (fun cd2 st2 => visitClassDeclaration p 0 cd2 st2) p
        A.properties inst ⟨[], k⟩ hprops
    obtain ⟨id, hid⟩ :=
      processPropsF_tracks_relationship
        (fun cd2 st2 => visitClassDeclaration p 0 cd2 st2) p r B hrel hsingle hB
        A.properties inst ⟨[], k⟩ obj' st' hnodup hmem hnull hobj hok
    exact ⟨obj', st', id, by rw [e2]; exact hok, hid⟩

/-- C1 witness: `org.acme.A` and `org.acme.B` reference each other only
through relationship-typed properties; generation of an `A` instance returns
the same successful result for every fuel budget, and its `b` property is a
bare pointer to `org.acme.B`. -/
theorem relationship_cycle_terminates_witness :
    (⟨"b", "org.acme.B", false, true⟩ : Property) ∈ wDeclA.properties ∧
    getType wParamsAB.modelManager "org.acme.B" = some wDeclB ∧
    ((∀ fuel, generate wParamsAB (fuel + 1) wDeclA wInstA 0 =
        generate wParamsAB 1 wDeclA wInstA 0) ∧
      ∃ obj' st' id, generate wParamsAB 1 wDeclA wInstA 0 = .ok (obj', st') ∧
        getProp obj' "b" = some (.vrelationship wDeclB.ns wDeclB.name id)) :=
  ⟨by decide, rfl,
   relationship_cycle_terminates wParamsAB wDeclA wDeclB
     ⟨"b", "org.acme.B", false, true⟩ wInstA 0 (by decide) rfl rfl rfl
     (by decide) (by decide) rfl rfl⟩


end Composer
